import Mathlib

/-!
Shallow embedding of the XeTile workgroup-to-subgroup (WG-to-SG) pass
(`lib/Dialect/XeTile/Transforms/WgToSg.cpp`) and proofs about its
rewrite rules and its transpose/layout analysis.
-/

namespace WgToSg

/-- SSA values are identified by numeric ids. -/
abbrev Val := Nat

/- ----------------------------------------------------------------
Init-tile rewrite: subgroup 2-D coordinate from the linear subgroup id
(`WGToSGInitTileOpPattern::matchAndRewrite`).
---------------------------------------------------------------- -/

/-- From `WGToSGInitTileOpPattern::matchAndRewrite` (WgToSg.cpp lines
128-141): the pair `(sgIdX, sgIdY)` computed from the linear subgroup
id `sgID`.  When the op result is found in `sgLayoutMap` (`marked`,
i.e. layout order `[0, 1]`), `sgIdY = sgID / sgLayout[0]` and
`sgIdX = sgID % sgLayout[0]`; otherwise `sgIdY = sgID / sgLayout[1]`
and `sgIdX = sgID % sgLayout[1]`. -/
def initTileSgIds (sgLayout : Nat × Nat) (marked : Bool) (sgID : Nat) : Nat × Nat :=
  if marked then (sgID % sgLayout.1, sgID / sgLayout.1)
  else (sgID % sgLayout.2, sgID / sgLayout.2)

/-- From WgToSg.cpp lines 184-197: which of `(sgIdX, sgIdY)` is passed
as the `sgId` argument of `calculateGlobalOffsets` for the row axis
(`globalOffsetsX`, first component) and for the column axis
(`globalOffsetsY`, second component).  In the marked branch the row
axis receives `sgIdX` and the column axis `sgIdY`; in the default
branch the row axis receives `sgIdY` and the column axis `sgIdX`. -/
def initTileRowColIds (sgLayout : Nat × Nat) (marked : Bool) (sgID : Nat) : Nat × Nat :=
  let ids := initTileSgIds sgLayout marked sgID
  if marked then (ids.1, ids.2) else (ids.2, ids.1)

/- ----------------------------------------------------------------
Init-tile rewrite: offset enumeration (`calculateGlobalOffsets`,
WgToSg.cpp lines 164-203).
---------------------------------------------------------------- -/

/-- From the lambda `calculateGlobalOffsets` (WgToSg.cpp lines 164-181):
the loop `for (int i = 0; i < wgTileShape / sgTileShape; i += sgLayout)`
pushes `offset + ((i + sgId) % (wgTileShape / sgTileShape)) * sgTileShape`
for each visited `i`.  The visited `i` are exactly the multiples of
`sgLayout` below `wgTileShape / sgTileShape`, in increasing order
(the C++ loop requires `sgLayout > 0` to terminate; `sgLayout` is a
subgroup-grid dimension and is always positive). -/
def calculateGlobalOffsets (wgTileShape sgTileShape sgLayout sgId offset : Nat) :
    List Nat :=
  let N := wgTileShape / sgTileShape
  ((List.range N).filter (fun i => i % sgLayout = 0)).map
    (fun i => offset + ((i + sgId) % N) * sgTileShape)

/-- From WgToSg.cpp lines 198-203: the nested loop
`for y in globalOffsetsX { for x in globalOffsetsY { push {y, x} } }`
building `offsetPermutations` (row offset first, column offset second). -/
def offsetPermutations (xs ys : List Nat) : List (Nat × Nat) :=
  xs.foldr (fun y acc => ys.map (fun x => (y, x)) ++ acc) []

/-- The complete non-scatter offset enumeration of
`WGToSGInitTileOpPattern::matchAndRewrite` (WgToSg.cpp lines 143-229):
one emitted subgroup init-tile op per element of `offsetPermutations`,
with the last two offsets of the original op as the per-axis bases. -/
def initTileOffsets (wgShape sgData sgLayout : Nat × Nat) (marked : Bool)
    (sgID : Nat) (base : Nat × Nat) : List (Nat × Nat) :=
  let ids := initTileRowColIds sgLayout marked sgID
  let xs := calculateGlobalOffsets wgShape.1 sgData.1 sgLayout.1 ids.1 base.1
  let ys := calculateGlobalOffsets wgShape.2 sgData.2 sgLayout.2 ids.2 base.2
  offsetPermutations xs ys

/-- The coordinate range of a produced subgroup tile: the tile with
origin `off` and shape `sgData` covers the points
`[off.1, off.1 + sgData.1) x [off.2, off.2 + sgData.2)`. -/
def coversPoint (off sgData p : Nat × Nat) : Prop :=
  off.1 ≤ p.1 ∧ p.1 < off.1 + sgData.1 ∧ off.2 ≤ p.2 ∧ p.2 < off.2 + sgData.2

instance (off sgData p : Nat × Nat) : Decidable (coversPoint off sgData p) := by
  unfold coversPoint
  infer_instance

/- ----------------------------------------------------------------
Matrix-multiply decomposition (`WGToSGTileMMAOpPattern::matchAndRewrite`,
WgToSg.cpp lines 297-333).
---------------------------------------------------------------- -/

/-- The shape of a rank-2 vector value. -/
structure VecShape where
  rows : Nat
  cols : Nat
deriving DecidableEq, Repr

/-- From `WGToSGTileMMAOpPattern::matchAndRewrite` (WgToSg.cpp lines
309-328): the nested loop over `adaptor.getA()` (outer) and
`adaptor.getB()` (inner) creates one new `TileMMAOp` per pair, whose
result type is `aShape[0] x bShape[1]`.  The returned list holds the
result shapes of the created ops, in creation order. -/
def tileMMARewrite (as bs : List VecShape) : List VecShape :=
  as.foldr (fun a acc => bs.map (fun b => VecShape.mk a.rows b.cols) ++ acc) []

/- ----------------------------------------------------------------
Structured for-loop rewrite (`WGToSGSCFForOpPattern::matchAndRewrite`,
WgToSg.cpp lines 377-426).
---------------------------------------------------------------- -/

/-- From WgToSg.cpp lines 385-391: `remappedArgSizes` records, per
original loop-carried value, how many replacement values it was
remapped to. -/
def remappedArgSizes (remappedInitArgs : List (List Val)) : List Nat :=
  remappedInitArgs.map List.length

/-- From WgToSg.cpp lines 387-391: `flattenedRemappedInitArgs` appends
every remapped initial-argument list into one flat list; it becomes the
new loop's initial-argument list. -/
def flattenedRemappedInitArgs (remappedInitArgs : List (List Val)) : List Val :=
  remappedInitArgs.foldr (fun initArg acc => initArg ++ acc) []

/-- From WgToSg.cpp lines 412-421: the new loop's flat result list is
sliced back into consecutive groups whose sizes are `remappedArgSizes`
(`newForOp.getResults().slice(newResultOffset, remappedResultSize)`,
with `newResultOffset` accumulating the sizes). -/
def sliceResults : List Val → List Nat → List (List Val)
  | _, [] => []
  | results, k :: ks => results.take k :: sliceResults (results.drop k) ks

/- ----------------------------------------------------------------
Constant decomposition entry (`WGToSGArithConstantOpPattern::matchAndRewrite`,
WgToSg.cpp lines 469-542): order of the dense-elements cast, its
dereference, and the null guard.
---------------------------------------------------------------- -/

/-- Outcome of the head of `WGToSGArithConstantOpPattern::matchAndRewrite`. -/
inductive ConstMatchOutcome where
  /-- Line 477 calls `value.getType()` on a null `DenseElementsAttr`. -/
  | nullDeref : ConstMatchOutcome
  /-- Line 480-481: `if (!value) return mlir::failure();`. -/
  | declinedNullGuard : ConstMatchOutcome
  /-- Lines 485-487: `if (!mapAttr) return mlir::failure();`. -/
  | declinedNoMap : ConstMatchOutcome
  /-- Execution proceeds into the decomposition body. -/
  | proceed : ConstMatchOutcome
deriving DecidableEq, Repr

/-- From WgToSg.cpp lines 474-487, in source order: line 476 casts the
value attribute to a dense element array (`none` when the attribute is
not one); line 477 immediately dereferences the cast result
(`value.getType()`); line 480 checks `if (!value)`; line 483-487 look
up the `map` attribute.  The dereference precedes the null guard, so a
`none` cast result crashes before the guard can run. -/
def arithConstantMatchHead (denseValue : Option VecShape) (hasMapAttr : Bool) :
    ConstMatchOutcome :=
  match denseValue with
  | none => ConstMatchOutcome.nullDeref
  | some _ =>
    if !hasMapAttr then ConstMatchOutcome.declinedNoMap
    else ConstMatchOutcome.proceed

/- ----------------------------------------------------------------
Layout Annotation Store and the transpose/layout analysis
(`analyzeTransposeOps`, WgToSg.cpp lines 1226-1260).
---------------------------------------------------------------- -/

/-- The Layout Annotation Store `sgLayoutMap` (an `llvm::DenseMap` from
values to 2-element layout-order tags), modelled as a partial function. -/
abbrev LayoutMap := Val → Option (Nat × Nat)

/-- `sgLayoutMap.find(v) != sgLayoutMap.end()`. -/
def layoutContains (m : LayoutMap) (v : Val) : Bool :=
  (m v).isSome

/-- `sgLayoutMap.erase(v)`. -/
def layoutErase (m : LayoutMap) (v : Val) : LayoutMap :=
  fun w => if w = v then none else m w

/-- `sgLayoutMap[v] = tag` (insert or overwrite). -/
def layoutInsert (m : LayoutMap) (v : Val) (tag : Nat × Nat) : LayoutMap :=
  fun w => if w = v then some tag else m w

/-- The dataflow facts the analysis extracts for one transpose op: its
result value and, per tile-load feeding it (`findOps<LoadTileOp>`), the
list of tile-init results reached from that load's source
(`findOps<InitTileOp>`). -/
structure TransposeInfo where
  result : Val
  loads : List (List Val)

/-- From WgToSg.cpp lines 1248-1256: one iteration of the loop over the
discovered init-tile results: when the value is already present in
`sgLayoutMap` it is erased ("we need to mark it row major"), otherwise
it is inserted with tag `{0, 1}`. -/
def toggleInit (acc : LayoutMap) (v : Val) : LayoutMap :=
  if layoutContains acc v then layoutErase acc v else layoutInsert acc v (0, 1)

/-- From WgToSg.cpp lines 1238-1256: processing of the init-tile
results discovered for one load: when none were found the loop
continues; otherwise first
`sgLayoutMap[transposeOp->getResult(0)] = {0, 1}`, then each init
result is toggled. -/
def analyzeOneLoad (transposeResult : Val) (initOps : List Val) (m : LayoutMap) :
    LayoutMap :=
  if initOps.isEmpty then m
  else
    let m := layoutInsert m transposeResult (0, 1)
    initOps.foldl toggleInit m

/-- From `analyzeTransposeOps` (WgToSg.cpp lines 1227-1260): for one
transpose op, when no feeding load is found the walk skips the op;
otherwise each load's discovered init-tile results are processed in
order. -/
def analyzeTransposeOps (info : TransposeInfo) (m : LayoutMap) : LayoutMap :=
  if info.loads.isEmpty then m
  else info.loads.foldl (fun acc initOps => analyzeOneLoad info.result initOps acc) m

/- ----------------------------------------------------------------
Layout-conversion rewrite (`WGToSGXeTileConvertLayout::matchAndRewrite`,
WgToSg.cpp lines 627-754).
---------------------------------------------------------------- -/

/-- The operations created by the layout-conversion rewrite, in
creation order. -/
inductive SlmInst where
  /-- `memref.alloc` of a flat byte buffer of the given size
  (WgToSg.cpp line 695). -/
  | alloc (sizeBytes : Nat) : SlmInst
  /-- `memref.view` reshaping the flat buffer (line 697). -/
  | view : SlmInst
  /-- `gpu.subgroup_id` (line 700). -/
  | subgroupId : SlmInst
  /-- `memref.transpose` strided view (line 717, transpose-fold case). -/
  | transposeView : SlmInst
  /-- `xetile.init_tile` into the scratch buffer (lines 723 and 743). -/
  | initTile : SlmInst
  /-- `xetile.store_tile` of the subgroup's sub-tile (line 724). -/
  | storeTile : SlmInst
  /-- `gpu.barrier` (line 728). -/
  | barrier : SlmInst
  /-- `xetile.load_tile` reading the sub-tile back (line 745). -/
  | loadTile : SlmInst
deriving DecidableEq, Repr

/-- From `WGToSGXeTileConvertLayout::matchAndRewrite` (WgToSg.cpp lines
632-753): `none` when the rewrite declines (source rank is not 2, or a
workgroup map is missing, lines 634-635 and 685-686); otherwise the
list of created operations in program order: alloc of
`numElements * (bitWidth / 8)` bytes (lines 691-695), view, subgroup
id, the store block (with a transposed view when the source is a
one-use transpose, lines 711-718), barrier, and the load block. -/
def convertLayoutRewrite (srcRank numElements bitWidth : Nat)
    (hasSrcMap hasDstMap foldsTranspose : Bool) : Option (List SlmInst) :=
  if srcRank ≠ 2 then none
  else if !hasSrcMap || !hasDstMap then none
  else some
    ([SlmInst.alloc (numElements * (bitWidth / 8)), SlmInst.view, SlmInst.subgroupId]
      ++ (if foldsTranspose then [SlmInst.transposeView] else [])
      ++ [SlmInst.initTile, SlmInst.storeTile, SlmInst.barrier,
          SlmInst.initTile, SlmInst.loadTile])

/- ----------------------------------------------------------------
Elementwise rewrite with identical argument and result types
(`WGToSGElementWiseOpSameArgAndResultTypePattern::matchAndRewrite`,
WgToSg.cpp lines 984-1045).
---------------------------------------------------------------- -/

/-- From WgToSg.cpp lines 1025-1033: the number of subgroup-level
instances `numOps`: 1 when `sgLayout[0]*sgData[0] == wgShape[0]` or
`sgLayout[1]*sgData[1] == wgShape[1]` or (axis-swapped)
`sgLayout[1]*sgData[0] == wgShape[0]` or
`sgLayout[0]*sgData[1] == wgShape[1]`; otherwise
`wgShape[0]/(sgLayout[0]*sgData[0]) + wgShape[1]/(sgLayout[1]*sgData[1])`. -/
def elementwiseNumOps (wgShape sgData sgLayout : Nat × Nat) : Nat :=
  if sgLayout.1 * sgData.1 = wgShape.1 ∨ sgLayout.2 * sgData.2 = wgShape.2 ∨
      sgLayout.2 * sgData.1 = wgShape.1 ∨ sgLayout.1 * sgData.2 = wgShape.2 then
    1
  else
    wgShape.1 / (sgLayout.1 * sgData.1) + wgShape.2 / (sgLayout.2 * sgData.2)

/-- From WgToSg.cpp lines 1035-1042: the emitted instances.  Instance
`i` consumes `operand[j][i]` for every remapped operand list `j`
(`createOp` passes `operands[0][i]`, `operands[1][i]`, `operands[2][i]`)
and has its result type force-set to the `sgData` shape
(`newOp->getResult(0).setType(newTy)`).  Operand slots are looked up
optionally; the C++ indexes them directly. -/
def elementwiseRewrite (wgShape sgData sgLayout : Nat × Nat)
    (operands : List (List Val)) : List (List (Option Val) × VecShape) :=
  (List.range (elementwiseNumOps wgShape sgData sgLayout)).map
    (fun i => (operands.map (fun os => os[i]?), VecShape.mk sgData.1 sgData.2))

/- ----------------------------------------------------------------
Vector-transpose rule, its legality, and the conversion driver
(`WGToSGVectorTranspose::matchAndRewrite`, WgToSg.cpp lines 544-586;
`XeTileWgToSgPass::runOnOperation`, lines 1320-1462).
---------------------------------------------------------------- -/

/-- From `WGToSGVectorTranspose::matchAndRewrite` (WgToSg.cpp lines
552-585): the rule declines when the vector rank is not 2 (line 555),
when no `map` attribute is present (lines 561-566), or when the result
is not found in `sgLayoutMap` (lines 568-584, the `else` branch returns
failure); it succeeds only in the marked (layout order `[0, 1]`) case. -/
def vectorTransposeRuleSucceeds (rank : Nat) (hasMapAttr markedColMajor : Bool) :
    Bool :=
  rank == 2 && hasMapAttr && markedColMajor

/-- From `XeTileWgToSgPass::runOnOperation` (WgToSg.cpp lines
1422-1439): a `vector.transpose` op is legal iff it carries no
workgroup-map `map` attribute. -/
def vectorTransposeLegal (hasMapAttr : Bool) : Bool :=
  !hasMapAttr

/-- An operation instance relevant to the driver model: whether the
Legality Oracle accepts it as-is, and whether some registered rule
rewrites it successfully. -/
structure DriverOp where
  legal : Bool
  someRuleSucceeds : Bool
deriving DecidableEq, Repr

/-- Modelled from the spec: the Partial Conversion Orchestrator
(`applyPartialConversion`) is supplied by the external IR framework and
is not part of this repository's sources.  Per spec section 4.4, the
driver repeatedly tries every registered rule on each illegal
operation; an illegal operation for which no rule succeeds remains
illegal, and "On completion, if any illegal operation remains, the
pass fails (emits a fatal pass error)".  The pass succeeds iff every
operation is either legal or successfully rewritten. -/
def passSucceeds (ops : List DriverOp) : Bool :=
  ops.all (fun o => o.legal || o.someRuleSucceeds)

/-- Recognizer for scratch-allocation instructions. -/
def isAllocInst : SlmInst → Bool
  | SlmInst.alloc _ => true
  | _ => false

/-- Recognizer for sub-tile store instructions. -/
def isStoreInst : SlmInst → Bool
  | SlmInst.storeTile => true
  | _ => false

/-- Recognizer for barrier instructions. -/
def isBarrierInst : SlmInst → Bool
  | SlmInst.barrier => true
  | _ => false

/-- Recognizer for sub-tile load instructions. -/
def isLoadInst : SlmInst → Bool
  | SlmInst.loadTile => true
  | _ => false

/- ----------------------------------------------------------------
Helper lemmas.
---------------------------------------------------------------- -/

theorem tileMMARewrite_nil (bs : List VecShape) : tileMMARewrite [] bs = [] := rfl

theorem tileMMARewrite_cons (a : VecShape) (as bs : List VecShape) :
    tileMMARewrite (a :: as) bs =
      bs.map (fun b => VecShape.mk a.rows b.cols) ++ tileMMARewrite as bs := rfl

theorem tileMMARewrite_length (as bs : List VecShape) :
    (tileMMARewrite as bs).length = as.length * bs.length := by
  induction as with
  | nil => simp [tileMMARewrite_nil]
  | cons a as ih =>
    simp [tileMMARewrite_cons, ih, List.length_append, Nat.succ_mul, Nat.add_comm]

theorem tileMMARewrite_getElem (as bs : List VecShape) (i j : Nat)
    (hi : i < as.length) (hj : j < bs.length) :
    (tileMMARewrite as bs)[i * bs.length + j]? =
      some (VecShape.mk (as.get ⟨i, hi⟩).rows (bs.get ⟨j, hj⟩).cols) := by
  induction as generalizing i with
  | nil => simp at hi
  | cons a as ih =>
    cases i with
    | zero =>
      rw [tileMMARewrite_cons]
      rw [List.getElem?_append_left (by simpa using hj)]
      simp [List.getElem?_map, List.getElem?_eq_getElem hj]
    | succ i =>
      have hi' : i < as.length := Nat.lt_of_succ_lt_succ hi
      have harith : (i + 1) * bs.length + j = bs.length + (i * bs.length + j) := by
        rw [Nat.succ_mul]; omega
      rw [tileMMARewrite_cons, harith]
      rw [List.getElem?_append_right (by simp)]
      simpa using ih i hi'

theorem flattenedRemappedInitArgs_nil : flattenedRemappedInitArgs [] = [] := rfl

theorem flattenedRemappedInitArgs_cons (l : List Val) (ls : List (List Val)) :
    flattenedRemappedInitArgs (l :: ls) = l ++ flattenedRemappedInitArgs ls := rfl

theorem flattenedRemappedInitArgs_length (ls : List (List Val)) :
    (flattenedRemappedInitArgs ls).length = (remappedArgSizes ls).sum := by
  induction ls with
  | nil => rfl
  | cons l ls ih =>
    simp [flattenedRemappedInitArgs_cons, remappedArgSizes, List.length_append] at *
    simp [ih]

theorem sliceResults_flattened (ls : List (List Val)) :
    sliceResults (flattenedRemappedInitArgs ls) (remappedArgSizes ls) = ls := by
  induction ls with
  | nil => rfl
  | cons l ls ih =>
    show (l ++ flattenedRemappedInitArgs ls).take l.length ::
        sliceResults ((l ++ flattenedRemappedInitArgs ls).drop l.length)
          (remappedArgSizes ls) = l :: ls
    rw [List.take_left, List.drop_left, ih]

theorem sliceResults_spec (results : List Val) (sizes : List Nat)
    (h : results.length = sizes.sum) :
    (sliceResults results sizes).map List.length = sizes ∧
    (sliceResults results sizes).foldr (· ++ ·) [] = results := by
  induction sizes generalizing results with
  | nil =>
    have : results = [] := List.eq_nil_of_length_eq_zero (by simpa using h)
    subst this; exact ⟨rfl, rfl⟩
  | cons k ks ih =>
    have hk : k ≤ results.length := by rw [h, List.sum_cons]; omega
    have hdrop : (results.drop k).length = ks.sum := by
      simp [List.length_drop, h, List.sum_cons]
    obtain ⟨ih1, ih2⟩ := ih (results.drop k) hdrop
    refine ⟨?_, ?_⟩
    · show (results.take k).length :: _ = k :: ks
      rw [List.length_take, Nat.min_eq_left hk, ih1]
    · show results.take k ++ _ = results
      rw [ih2, List.take_append_drop]

theorem range_filter_mod (k L : Nat) (hL : 0 < L) :
    (List.range (k * L)).filter (fun i => i % L = 0) = (List.range k).map (· * L) := by
  induction k with
  | zero => simp
  | succ k ih =>
    rw [Nat.succ_mul, List.range_add, List.filter_append, ih]
    have h2 : (List.filter (fun i => decide (i % L = 0))
        (List.map (fun x => k * L + x) (List.range L))) = [k * L] := by
      rw [List.filter_map]
      have hpred : List.filter ((fun i => decide (i % L = 0)) ∘ (fun x => k * L + x))
          (List.range L) = [0] := by
        have : ∀ t ∈ List.range L,
            ((fun i => decide (i % L = 0)) ∘ (fun x => k * L + x)) t =
              decide (t = 0) := by
          intro t ht
          have htL : t < L := List.mem_range.mp ht
          have hmod : (k * L + t) % L = t := by
            rw [Nat.add_comm, Nat.add_mul_mod_self_right, Nat.mod_eq_of_lt htL]
          simp only [Function.comp, hmod]
        rw [List.filter_congr this]
        obtain ⟨l, rfl⟩ : ∃ l, L = l + 1 := ⟨L - 1, by omega⟩
        rw [List.range_succ_eq_map]
        simp
      rw [hpred]
      simp
    rw [h2, List.range_succ, List.map_append]
    simp

theorem calculateGlobalOffsets_closed (k L d s off : Nat) (hL : 0 < L) (hd : 0 < d) :
    calculateGlobalOffsets (k * L * d) d L s off =
      (List.range k).map (fun j => off + ((j * L + s) % (k * L)) * d) := by
  unfold calculateGlobalOffsets
  have hN : k * L * d / d = k * L := Nat.mul_div_cancel _ hd
  simp only [hN]
  rw [range_filter_mod k L hL, List.map_map]
  rfl

theorem calculateGlobalOffsets_closed_of_lt (k L d s off : Nat) (hL : 0 < L)
    (hd : 0 < d) (hs : s < L) :
    calculateGlobalOffsets (k * L * d) d L s off =
      (List.range k).map (fun j => off + (j * L + s) * d) := by
  rw [calculateGlobalOffsets_closed k L d s off hL hd]
  apply List.map_congr_left
  intro j hj
  have hjk : j < k := List.mem_range.mp hj
  have hlt : j * L + s < k * L := by
    calc j * L + s < j * L + L := Nat.add_lt_add_left hs _
    _ = (j + 1) * L := (Nat.succ_mul j L).symm
    _ ≤ k * L := Nat.mul_le_mul_right L hjk
  rw [Nat.mod_eq_of_lt hlt]

theorem calculateGlobalOffsets_length (k L d s off : Nat) (hL : 0 < L) (hd : 0 < d) :
    (calculateGlobalOffsets (k * L * d) d L s off).length = k := by
  rw [calculateGlobalOffsets_closed k L d s off hL hd]
  simp

theorem calculateGlobalOffsets_nodup (k L d s off : Nat) (hL : 0 < L) (hd : 0 < d)
    (hs : s < L) : (calculateGlobalOffsets (k * L * d) d L s off).Nodup := by
  rw [calculateGlobalOffsets_closed_of_lt k L d s off hL hd hs]
  refine List.Nodup.map ?_ (List.nodup_range k)
  intro j1 j2 he
  have h1 : (j1 * L + s) * d = (j2 * L + s) * d := by simpa using he
  have h2 : j1 * L + s = j2 * L + s := Nat.eq_of_mul_eq_mul_right hd h1
  have h3 : j1 * L = j2 * L := by omega
  exact Nat.eq_of_mul_eq_mul_right hL h3

theorem calculateGlobalOffsets_mem (k L d s off r : Nat) (hL : 0 < L) (hd : 0 < d)
    (hs : s < L) :
    r ∈ calculateGlobalOffsets (k * L * d) d L s off ↔
      ∃ j, j < k ∧ r = off + (j * L + s) * d := by
  rw [calculateGlobalOffsets_closed_of_lt k L d s off hL hd hs]
  simp only [List.mem_map, List.mem_range]
  constructor
  · rintro ⟨j, hj, rfl⟩; exact ⟨j, hj, rfl⟩
  · rintro ⟨j, hj, rfl⟩; exact ⟨j, hj, rfl⟩

theorem offsetPermutations_eq_product (xs ys : List Nat) :
    offsetPermutations xs ys = xs ×ˢ ys := by
  induction xs with
  | nil => rfl
  | cons x xs ih =>
    show ys.map (fun c => (x, c)) ++ offsetPermutations xs ys = _
    rw [ih, List.product_cons]

theorem initTileRowColIds_lt (L1 L2 sgID : Nat) (marked : Bool) (hL1 : 0 < L1)
    (hL2 : 0 < L2) (hsg : sgID < L1 * L2) :
    (initTileRowColIds (L1, L2) marked sgID).1 < L1 ∧
    (initTileRowColIds (L1, L2) marked sgID).2 < L2 := by
  cases marked
  · simp only [initTileRowColIds, initTileSgIds]
    exact ⟨(Nat.div_lt_iff_lt_mul hL2).mpr hsg, Nat.mod_lt _ hL2⟩
  · simp only [initTileRowColIds, initTileSgIds]
    refine ⟨Nat.mod_lt _ hL1, (Nat.div_lt_iff_lt_mul hL1).mpr ?_⟩
    rw [Nat.mul_comm L2 L1]
    exact hsg

theorem mem_initTileOffsets (k1 k2 L1 L2 d1 d2 id b1 b2 : Nat) (marked : Bool)
    (hL1 : 0 < L1) (hL2 : 0 < L2) (hd1 : 0 < d1) (hd2 : 0 < d2)
    (hid : id < L1 * L2) (off : Nat × Nat) :
    off ∈ initTileOffsets (k1 * L1 * d1, k2 * L2 * d2) (d1, d2) (L1, L2) marked id
        (b1, b2) ↔
      ((∃ j1, j1 < k1 ∧
          off.1 = b1 + (j1 * L1 + (initTileRowColIds (L1, L2) marked id).1) * d1) ∧
       (∃ j2, j2 < k2 ∧
          off.2 = b2 + (j2 * L2 + (initTileRowColIds (L1, L2) marked id).2) * d2)) := by
  obtain ⟨hr, hc⟩ := initTileRowColIds_lt L1 L2 id marked hL1 hL2 hid
  obtain ⟨ox, oy⟩ := off
  show (ox, oy) ∈ offsetPermutations _ _ ↔ _
  rw [offsetPermutations_eq_product, List.mem_product,
    calculateGlobalOffsets_mem k1 L1 d1 _ b1 ox hL1 hd1 hr,
    calculateGlobalOffsets_mem k2 L2 d2 _ b2 oy hL2 hd2 hc]

theorem rowColIds_unique (L1 L2 c1 c2 : Nat) (marked : Bool) (hL1 : 0 < L1)
    (hL2 : 0 < L2) (hc1 : c1 < L1) (hc2 : c2 < L2) :
    ∃! id : Nat, id < L1 * L2 ∧ initTileRowColIds (L1, L2) marked id = (c1, c2) := by
  cases marked
  · refine ⟨c1 * L2 + c2, ⟨?_, ?_⟩, ?_⟩
    · calc c1 * L2 + c2 < c1 * L2 + L2 := Nat.add_lt_add_left hc2 _
        _ = (c1 + 1) * L2 := (Nat.succ_mul c1 L2).symm
        _ ≤ L1 * L2 := Nat.mul_le_mul_right L2 hc1
    · show ((c1 * L2 + c2) / L2, (c1 * L2 + c2) % L2) = (c1, c2)
      rw [Nat.add_comm (c1 * L2) c2, Nat.add_mul_div_right c2 c1 hL2,
        Nat.add_mul_mod_self_right, Nat.div_eq_of_lt hc2, Nat.mod_eq_of_lt hc2,
        Nat.zero_add]
    · rintro y ⟨hy, hEq⟩
      have hEq' : (y / L2, y % L2) = (c1, c2) := hEq
      have h1 : y / L2 = c1 := congrArg Prod.fst hEq'
      have h2 : y % L2 = c2 := congrArg Prod.snd hEq'
      have hdm := Nat.div_add_mod y L2
      rw [h1, h2] at hdm
      rw [← hdm, Nat.mul_comm]
  · refine ⟨c2 * L1 + c1, ⟨?_, ?_⟩, ?_⟩
    · calc c2 * L1 + c1 < c2 * L1 + L1 := Nat.add_lt_add_left hc1 _
        _ = (c2 + 1) * L1 := (Nat.succ_mul c2 L1).symm
        _ ≤ L2 * L1 := Nat.mul_le_mul_right L1 hc2
        _ = L1 * L2 := Nat.mul_comm L2 L1
    · show ((c2 * L1 + c1) % L1, (c2 * L1 + c1) / L1) = (c1, c2)
      rw [Nat.add_comm (c2 * L1) c1, Nat.add_mul_div_right c1 c2 hL1,
        Nat.add_mul_mod_self_right, Nat.div_eq_of_lt hc1, Nat.mod_eq_of_lt hc1,
        Nat.zero_add]
    · rintro y ⟨hy, hEq⟩
      have hEq' : (y % L1, y / L1) = (c1, c2) := hEq
      have h1 : y % L1 = c1 := congrArg Prod.fst hEq'
      have h2 : y / L1 = c2 := congrArg Prod.snd hEq'
      have hdm := Nat.div_add_mod y L1
      rw [h1, h2] at hdm
      rw [← hdm, Nat.mul_comm]

/- ----------------------------------------------------------------
Claim theorems: C1, C5, C6, C9, C10.
---------------------------------------------------------------- -/

/-- C1 counterexample: with `sgLayout = [4, 8]` and linear id 9, the
column-major (marked) branch of the init-tile rewrite feeds
`9 % 4 = 1` to the row axis and `9 / 4 = 2` to the column axis, not
row `9 / 4 = 2` and column `9 % 4 = 1` as the claim states. -/
theorem C1_counterexample :
    initTileRowColIds (4, 8) true 9 ≠ (2, 1) ∧
    initTileRowColIds (4, 8) true 9 = (1, 2) := by
  decide

/-- C1 (amended): in the init-tile rewrite, an unmarked result uses
row = id / sgLayout-columns and col = id % sgLayout-columns; a
column-major-marked result uses row = id % sgLayout-rows and
col = id / sgLayout-rows.  With sgLayout = [4, 8] and id 9 the default
split yields row 1, col 1, the column-major split yields row 1, col 2,
and the two splits differ. -/
theorem C1_init_tile_subgroup_split (sgLayout : Nat × Nat) (sgID : Nat) :
    initTileRowColIds sgLayout false sgID = (sgID / sgLayout.2, sgID % sgLayout.2) ∧
    initTileRowColIds sgLayout true sgID = (sgID % sgLayout.1, sgID / sgLayout.1) ∧
    initTileRowColIds (4, 8) false 9 = (1, 1) ∧
    initTileRowColIds (4, 8) true 9 = (1, 2) ∧
    initTileRowColIds (4, 8) false 9 ≠ initTileRowColIds (4, 8) true 9 := by
  refine ⟨rfl, rfl, by decide, by decide, by decide⟩

/-- C5: the matrix-multiply rewrite emits one new matmul per pair of
the Cartesian product of the decomposed left and right operand lists,
in product order (`m * n` ops), the pair `(i, j)` having output shape
`rows(A_i) x cols(B_j)`; in particular A split into 2 and B split into
3 yields exactly 6 new matmuls. -/
theorem C5_tile_mma_cartesian (as bs : List VecShape) (i j : Nat)
    (hi : i < as.length) (hj : j < bs.length) :
    (tileMMARewrite as bs).length = as.length * bs.length ∧
    (tileMMARewrite as bs)[i * bs.length + j]? =
      some (VecShape.mk (as.get ⟨i, hi⟩).rows (bs.get ⟨j, hj⟩).cols) ∧
    (tileMMARewrite [VecShape.mk 32 128, VecShape.mk 32 128]
        [VecShape.mk 128 64, VecShape.mk 128 64, VecShape.mk 128 64]).length = 6 := by
  exact ⟨tileMMARewrite_length as bs, tileMMARewrite_getElem as bs i j hi hj, by decide⟩

/-- C5 witness. -/
theorem C5_tile_mma_cartesian_witness :
    (tileMMARewrite [VecShape.mk 2 4, VecShape.mk 3 4]
        [VecShape.mk 4 5, VecShape.mk 4 6, VecShape.mk 4 7]).length = 2 * 3 ∧
    (tileMMARewrite [VecShape.mk 2 4, VecShape.mk 3 4]
        [VecShape.mk 4 5, VecShape.mk 4 6, VecShape.mk 4 7])[1 * 3 + 2]? =
      some (VecShape.mk 3 7) := by
  have h := C5_tile_mma_cartesian [VecShape.mk 2 4, VecShape.mk 3 4]
    [VecShape.mk 4 5, VecShape.mk 4 6, VecShape.mk 4 7] 1 2 (by decide) (by decide)
  exact ⟨h.1, h.2.1⟩

/-- C6: the for-loop rewrite flattens the remapped initial-argument
lists of sizes `k1..kn` into `k1+...+kn` flat initial arguments, and
slices the new loop's flat result list back into consecutive groups of
sizes `k1..kn` at the original positions; 2 loop-carried values
remapped to 3 and 1 values yield 4 flat initial arguments whose
results regroup as 3 and 1. -/
theorem C6_for_loop_flattening (remapped : List (List Val)) (results : List Val)
    (h : results.length = (remappedArgSizes remapped).sum) :
    (flattenedRemappedInitArgs remapped).length = (remappedArgSizes remapped).sum ∧
    sliceResults (flattenedRemappedInitArgs remapped) (remappedArgSizes remapped) =
      remapped ∧
    (sliceResults results (remappedArgSizes remapped)).map List.length =
      remappedArgSizes remapped ∧
    (sliceResults results (remappedArgSizes remapped)).foldr (· ++ ·) [] = results ∧
    (flattenedRemappedInitArgs [[1, 2, 3], [4]]).length = 4 ∧
    sliceResults [10, 11, 12, 13] (remappedArgSizes [[1, 2, 3], [4]]) =
      [[10, 11, 12], [13]] := by
  obtain ⟨h1, h2⟩ := sliceResults_spec results (remappedArgSizes remapped) h
  exact ⟨flattenedRemappedInitArgs_length remapped, sliceResults_flattened remapped,
    h1, h2, by decide, by decide⟩

/-- C6 witness. -/
theorem C6_for_loop_flattening_witness :
    (flattenedRemappedInitArgs [[1, 2, 3], [4]]).length =
      (remappedArgSizes [[1, 2, 3], [4]]).sum ∧
    sliceResults [10, 11, 12, 13] (remappedArgSizes [[1, 2, 3], [4]]) =
      [[10, 11, 12], [13]] := by
  have h := C6_for_loop_flattening [[1, 2, 3], [4]] [10, 11, 12, 13] (by decide)
  exact ⟨h.1, h.2.2.2.2.2⟩

/-- C9: a rank-2 vector transpose with a `map` attribute whose result
is not marked column-major is declined by the transpose rule and is
illegal under the legality predicate; by the driver contract
(spec-modelled), a program containing such an op makes the whole pass
fail. -/
theorem C9_unmarked_transpose_fails_pass (ops : List DriverOp)
    (hmem : DriverOp.mk (vectorTransposeLegal true)
        (vectorTransposeRuleSucceeds 2 true false) ∈ ops) :
    vectorTransposeRuleSucceeds 2 true false = false ∧
    vectorTransposeLegal true = false ∧
    passSucceeds ops = false := by
  refine ⟨rfl, rfl, ?_⟩
  have : ¬(passSucceeds ops = true) := by
    intro hall
    have := (List.all_eq_true.mp hall) _ hmem
    simp [vectorTransposeLegal, vectorTransposeRuleSucceeds] at this
  exact Bool.eq_false_iff.mpr (fun hc => this hc)

/-- C9 witness. -/
theorem C9_unmarked_transpose_fails_pass_witness :
    vectorTransposeRuleSucceeds 2 true false = false ∧
    vectorTransposeLegal true = false ∧
    passSucceeds [DriverOp.mk false false] = false :=
  C9_unmarked_transpose_fails_pass [DriverOp.mk false false] (by decide)

/-- C10: in the constant-decomposition rule the dense-elements cast
result is dereferenced (line 477) before the null guard (line 480), so
a constant whose value attribute is not a dense element array reaches
the null dereference, and the decline-guard outcome is unreachable for
every input. -/
theorem C10_const_null_guard_unreachable (denseValue : Option VecShape)
    (hasMapAttr : Bool) :
    arithConstantMatchHead none hasMapAttr = ConstMatchOutcome.nullDeref ∧
    arithConstantMatchHead denseValue hasMapAttr ≠
      ConstMatchOutcome.declinedNullGuard := by
  refine ⟨rfl, ?_⟩
  cases denseValue <;> cases hasMapAttr <;> simp [arithConstantMatchHead]

/-- C7: every successful layout-conversion rewrite creates exactly one
scratch allocation (of `elementCount * elementSizeBytes` bytes, with
`elementSizeBytes = bitWidth / 8`), exactly one sub-tile store, exactly
one barrier, and exactly one sub-tile load, in that program order, the
barrier strictly between the store and the load. -/
theorem C7_convert_layout_store_barrier_load (srcRank numElements bitWidth : Nat)
    (hasSrcMap hasDstMap foldsTranspose : Bool) (tr : List SlmInst)
    (h : convertLayoutRewrite srcRank numElements bitWidth hasSrcMap hasDstMap
        foldsTranspose = some tr) :
    tr.countP isAllocInst = 1 ∧
    tr.countP isStoreInst = 1 ∧
    tr.countP isBarrierInst = 1 ∧
    tr.countP isLoadInst = 1 ∧
    ∃ i1 i2 i3 i4 : Nat, i1 < i2 ∧ i2 < i3 ∧ i3 < i4 ∧
      tr[i1]? = some (SlmInst.alloc (numElements * (bitWidth / 8))) ∧
      tr[i2]? = some SlmInst.storeTile ∧
      tr[i3]? = some SlmInst.barrier ∧
      tr[i4]? = some SlmInst.loadTile := by
  unfold convertLayoutRewrite at h
  split at h
  · exact absurd h (by simp)
  split at h
  · exact absurd h (by simp)
  simp only [Option.some.injEq] at h
  subst h
  cases foldsTranspose
  · refine ⟨?_, ?_, ?_, ?_, 0, 4, 5, 7, ?_⟩ <;>
      simp [List.countP_cons, isAllocInst, isStoreInst, isBarrierInst, isLoadInst]
  · refine ⟨?_, ?_, ?_, ?_, 0, 5, 6, 8, ?_⟩ <;>
      simp [List.countP_cons, isAllocInst, isStoreInst, isBarrierInst, isLoadInst]

/-- C7 witness. -/
theorem C7_convert_layout_store_barrier_load_witness :
    ([SlmInst.alloc (65536 * (32 / 8)), SlmInst.view, SlmInst.subgroupId,
        SlmInst.initTile, SlmInst.storeTile, SlmInst.barrier, SlmInst.initTile,
        SlmInst.loadTile].countP isAllocInst = 1 ∧
     [SlmInst.alloc (65536 * (32 / 8)), SlmInst.view, SlmInst.subgroupId,
        SlmInst.initTile, SlmInst.storeTile, SlmInst.barrier, SlmInst.initTile,
        SlmInst.loadTile].countP isStoreInst = 1) ∧
    (∃ i1 i2 i3 i4 : Nat, i1 < i2 ∧ i2 < i3 ∧ i3 < i4 ∧
      [SlmInst.alloc (65536 * (32 / 8)), SlmInst.view, SlmInst.subgroupId,
        SlmInst.initTile, SlmInst.storeTile, SlmInst.barrier, SlmInst.initTile,
        SlmInst.loadTile][i1]? = some (SlmInst.alloc (65536 * (32 / 8))) ∧
      [SlmInst.alloc (65536 * (32 / 8)), SlmInst.view, SlmInst.subgroupId,
        SlmInst.initTile, SlmInst.storeTile, SlmInst.barrier, SlmInst.initTile,
        SlmInst.loadTile][i2]? = some SlmInst.storeTile ∧
      [SlmInst.alloc (65536 * (32 / 8)), SlmInst.view, SlmInst.subgroupId,
        SlmInst.initTile, SlmInst.storeTile, SlmInst.barrier, SlmInst.initTile,
        SlmInst.loadTile][i3]? = some SlmInst.barrier ∧
      [SlmInst.alloc (65536 * (32 / 8)), SlmInst.view, SlmInst.subgroupId,
        SlmInst.initTile, SlmInst.storeTile, SlmInst.barrier, SlmInst.initTile,
        SlmInst.loadTile][i4]? = some SlmInst.loadTile) := by
  have h := C7_convert_layout_store_barrier_load 2 65536 32 true true false
    [SlmInst.alloc (65536 * (32 / 8)), SlmInst.view, SlmInst.subgroupId,
      SlmInst.initTile, SlmInst.storeTile, SlmInst.barrier, SlmInst.initTile,
      SlmInst.loadTile] (by decide)
  exact ⟨⟨h.1, h.2.1⟩, h.2.2.2.2⟩

/-- C8: the same-shape elementwise rewrite emits 1 instance when the
subgroup grid exactly tiles the workgroup shape along either axis
(including the two axis-swapped combinations) and otherwise
`wgShape[0]/(sgLayout[0]*sgData[0]) + wgShape[1]/(sgLayout[1]*sgData[1])`
instances (the sum of the two axis ratios); instance `i` consumes the
`i`-th slice of every remapped operand and its result type is force-set
to the `sgData` shape. -/
theorem C8_elementwise_instance_count (wgShape sgData sgLayout : Nat × Nat)
    (operands : List (List Val)) (i : Nat)
    (hi : i < elementwiseNumOps wgShape sgData sgLayout) :
    ((sgLayout.1 * sgData.1 = wgShape.1 ∨ sgLayout.2 * sgData.2 = wgShape.2 ∨
        sgLayout.2 * sgData.1 = wgShape.1 ∨ sgLayout.1 * sgData.2 = wgShape.2) →
      elementwiseNumOps wgShape sgData sgLayout = 1) ∧
    (¬(sgLayout.1 * sgData.1 = wgShape.1 ∨ sgLayout.2 * sgData.2 = wgShape.2 ∨
        sgLayout.2 * sgData.1 = wgShape.1 ∨ sgLayout.1 * sgData.2 = wgShape.2) →
      elementwiseNumOps wgShape sgData sgLayout =
        wgShape.1 / (sgLayout.1 * sgData.1) + wgShape.2 / (sgLayout.2 * sgData.2)) ∧
    (elementwiseRewrite wgShape sgData sgLayout operands).length =
      elementwiseNumOps wgShape sgData sgLayout ∧
    (elementwiseRewrite wgShape sgData sgLayout operands)[i]? =
      some (operands.map (fun os => os[i]?), VecShape.mk sgData.1 sgData.2) := by
  refine ⟨fun hc => by rw [elementwiseNumOps, if_pos hc],
    fun hc => by rw [elementwiseNumOps, if_neg hc], ?_, ?_⟩
  · simp [elementwiseRewrite]
  · unfold elementwiseRewrite
    rw [List.getElem?_map, List.getElem?_range hi]
    rfl

/-- C8 witness: a round-robin configuration `wgShape = [256, 256]`,
`sgData = [32, 32]`, `sgLayout = [4, 4]`, giving `256/128 + 256/128 = 4`
instances. -/
theorem C8_elementwise_instance_count_witness :
    (¬((4 : Nat) * 32 = 256 ∨ (4 : Nat) * 32 = 256 ∨ (4 : Nat) * 32 = 256 ∨
        (4 : Nat) * 32 = 256) →
      elementwiseNumOps (256, 256) (32, 32) (4, 4) =
        256 / (4 * 32) + 256 / (4 * 32)) ∧
    (elementwiseRewrite (256, 256) (32, 32) (4, 4) [[1, 2, 3, 4], [5, 6, 7, 8]]).length =
      elementwiseNumOps (256, 256) (32, 32) (4, 4) ∧
    (elementwiseRewrite (256, 256) (32, 32) (4, 4) [[1, 2, 3, 4], [5, 6, 7, 8]])[3]? =
      some ([some 4, some 8], VecShape.mk 32 32) := by
  have h := C8_elementwise_instance_count (256, 256) (32, 32) (4, 4)
    [[1, 2, 3, 4], [5, 6, 7, 8]] 3 (by decide)
  refine ⟨h.2.1, h.2.2.1, ?_⟩
  have h4 := h.2.2.2
  simpa using h4

/-- C3: for a non-scatter init-tile op with a workgroup map, when
`sgLayout * sgData` exactly equals the workgroup tile shape on both
axes the rewrite emits exactly one subgroup init-tile op; when the
workgroup tile is an integer round-robin multiple (`wgDim =
k * sgLayout * sgData` per axis), the number of offsets along each
axis equals `wgDim / (sgLayout * sgData)`, each offset is
`base + ((i + sgId) mod (wgDim / sgDim)) * sgDim` with `i` stepping by
`sgLayout`, and the emitted ops are the full Cartesian product of row
and column offsets with no duplicate pair. -/
theorem C3_init_tile_decomposition (L1 L2 d1 d2 k1 k2 sgID b1 b2 : Nat)
    (marked : Bool) (hL1 : 0 < L1) (hL2 : 0 < L2) (hd1 : 0 < d1) (hd2 : 0 < d2)
    (hsg : sgID < L1 * L2) :
    (initTileOffsets (L1 * d1, L2 * d2) (d1, d2) (L1, L2) marked sgID
        (b1, b2)).length = 1 ∧
    (calculateGlobalOffsets (k1 * L1 * d1) d1 L1
        (initTileRowColIds (L1, L2) marked sgID).1 b1).length =
      k1 * L1 * d1 / (L1 * d1) ∧
    (calculateGlobalOffsets (k2 * L2 * d2) d2 L2
        (initTileRowColIds (L1, L2) marked sgID).2 b2).length =
      k2 * L2 * d2 / (L2 * d2) ∧
    calculateGlobalOffsets (k1 * L1 * d1) d1 L1
        (initTileRowColIds (L1, L2) marked sgID).1 b1 =
      (List.range k1).map (fun j =>
        b1 + ((j * L1 + (initTileRowColIds (L1, L2) marked sgID).1) %
          (k1 * L1 * d1 / d1)) * d1) ∧
    initTileOffsets (k1 * L1 * d1, k2 * L2 * d2) (d1, d2) (L1, L2) marked sgID
        (b1, b2) =
      (calculateGlobalOffsets (k1 * L1 * d1) d1 L1
        (initTileRowColIds (L1, L2) marked sgID).1 b1) ×ˢ
      (calculateGlobalOffsets (k2 * L2 * d2) d2 L2
        (initTileRowColIds (L1, L2) marked sgID).2 b2) ∧
    (initTileOffsets (k1 * L1 * d1, k2 * L2 * d2) (d1, d2) (L1, L2) marked sgID
        (b1, b2)).length = k1 * k2 ∧
    (initTileOffsets (k1 * L1 * d1, k2 * L2 * d2) (d1, d2) (L1, L2) marked sgID
        (b1, b2)).Nodup := by
  obtain ⟨hr, hc⟩ := initTileRowColIds_lt L1 L2 sgID marked hL1 hL2 hsg
  have hdiv1 : k1 * L1 * d1 / (L1 * d1) = k1 := by
    rw [Nat.mul_assoc]
    exact Nat.mul_div_cancel _ (Nat.mul_pos hL1 hd1)
  have hdiv2 : k2 * L2 * d2 / (L2 * d2) = k2 := by
    rw [Nat.mul_assoc]
    exact Nat.mul_div_cancel _ (Nat.mul_pos hL2 hd2)
  refine ⟨?_, ?_, ?_, ?_, ?_, ?_, ?_⟩
  · have e1 : L1 * d1 = 1 * L1 * d1 := by rw [Nat.one_mul]
    have e2 : L2 * d2 = 1 * L2 * d2 := by rw [Nat.one_mul]
    show (offsetPermutations _ _).length = 1
    rw [e1, e2, offsetPermutations_eq_product, List.length_product,
      calculateGlobalOffsets_length 1 L1 d1 _ b1 hL1 hd1,
      calculateGlobalOffsets_length 1 L2 d2 _ b2 hL2 hd2]
  · rw [hdiv1]
    exact calculateGlobalOffsets_length k1 L1 d1 _ b1 hL1 hd1
  · rw [hdiv2]
    exact calculateGlobalOffsets_length k2 L2 d2 _ b2 hL2 hd2
  · have hN : k1 * L1 * d1 / d1 = k1 * L1 := Nat.mul_div_cancel _ hd1
    rw [hN]
    exact calculateGlobalOffsets_closed k1 L1 d1 _ b1 hL1 hd1
  · exact offsetPermutations_eq_product _ _
  · show (offsetPermutations _ _).length = k1 * k2
    rw [offsetPermutations_eq_product, List.length_product,
      calculateGlobalOffsets_length k1 L1 d1 _ b1 hL1 hd1,
      calculateGlobalOffsets_length k2 L2 d2 _ b2 hL2 hd2]
  · show (offsetPermutations _ _).Nodup
    rw [offsetPermutations_eq_product]
    exact List.Nodup.product
      (calculateGlobalOffsets_nodup k1 L1 d1 _ b1 hL1 hd1 hr)
      (calculateGlobalOffsets_nodup k2 L2 d2 _ b2 hL2 hd2 hc)

/-- C3 witness: `sgLayout = [4, 8]`, `sgData = [16, 16]`,
round-robin factors `k = [2, 3]`, subgroup id 9. -/
theorem C3_init_tile_decomposition_witness :
    (initTileOffsets (4 * 16, 8 * 16) (16, 16) (4, 8) false 9 (0, 0)).length = 1 ∧
    (calculateGlobalOffsets (2 * 4 * 16) 16 4
        (initTileRowColIds (4, 8) false 9).1 0).length = 2 * 4 * 16 / (4 * 16) ∧
    (initTileOffsets (2 * 4 * 16, 3 * 8 * 16) (16, 16) (4, 8) false 9
        (0, 0)).length = 2 * 3 ∧
    (initTileOffsets (2 * 4 * 16, 3 * 8 * 16) (16, 16) (4, 8) false 9
        (0, 0)).Nodup := by
  have h := C3_init_tile_decomposition 4 8 16 16 2 3 9 0 0 false
    (by decide) (by decide) (by decide) (by decide) (by decide)
  exact ⟨h.1, h.2.1, h.2.2.2.2.2.1, h.2.2.2.2.2.2⟩

theorem toggleInit_other (acc : LayoutMap) (y x : Val) (hxy : x ≠ y) :
    toggleInit acc y x = acc x := by
  unfold toggleInit
  split <;> simp [layoutErase, layoutInsert, hxy]

theorem toggleInit_self_absent (acc : LayoutMap) (v : Val)
    (h : layoutContains acc v = false) : toggleInit acc v v = some (0, 1) := by
  unfold toggleInit
  rw [if_neg (by simp [h])]
  simp [layoutInsert]

theorem toggleInit_self_present (acc : LayoutMap) (v : Val)
    (h : layoutContains acc v = true) : toggleInit acc v v = none := by
  unfold toggleInit
  rw [if_pos h]
  simp [layoutErase]

theorem toggleInit_foldl_other (xs : List Val) (x : Val) (hx : x ∉ xs)
    (m : LayoutMap) : (xs.foldl toggleInit m) x = m x := by
  induction xs generalizing m with
  | nil => rfl
  | cons y ys ih =>
    simp only [List.mem_cons, not_or] at hx
    rw [List.foldl_cons, ih hx.2, toggleInit_other m y x hx.1]

/-- C2: analyzing a transpose whose feeding loads reach a tile-init
result toggles that result in the Layout Annotation Store — it is
tagged `{0, 1}` when not yet marked and its mark is removed when
already marked — and the transpose's own result is marked `{0, 1}`. -/
theorem C2_transpose_analysis_toggle (r v : Val) (pre post : List Val)
    (m : LayoutMap) (hvpre : v ∉ pre) (hvpost : v ∉ post) (hrv : r ≠ v)
    (hrpre : r ∉ pre) (hrpost : r ∉ post) :
    (layoutContains m v = false →
      analyzeTransposeOps ⟨r, [pre ++ v :: post]⟩ m v = some (0, 1)) ∧
    (layoutContains m v = true →
      analyzeTransposeOps ⟨r, [pre ++ v :: post]⟩ m v = none) ∧
    analyzeTransposeOps ⟨r, [pre ++ v :: post]⟩ m r = some (0, 1) := by
  have hne : ([pre ++ v :: post] : List (List Val)).isEmpty = false := rfl
  have hinit : (pre ++ v :: post).isEmpty = false := by
    cases pre <;> rfl
  have hstep : ∀ m' : LayoutMap, analyzeTransposeOps ⟨r, [pre ++ v :: post]⟩ m' =
      (pre ++ v :: post).foldl toggleInit (layoutInsert m' r (0, 1)) := by
    intro m'
    unfold analyzeTransposeOps analyzeOneLoad
    rw [hne]
    simp only [Bool.false_eq_true, if_false, List.foldl_cons, List.foldl_nil]
    rw [hinit]
    simp
  rw [hstep m]
  set m1 := layoutInsert m r (0, 1) with hm1
  have hfold : (pre ++ v :: post).foldl toggleInit m1 =
      post.foldl toggleInit (toggleInit (pre.foldl toggleInit m1) v) := by
    rw [List.foldl_append, List.foldl_cons]
  rw [hfold]
  have hpre_v : (pre.foldl toggleInit m1) v = m v := by
    rw [toggleInit_foldl_other pre v hvpre m1, hm1]
    simp [layoutInsert, Ne.symm hrv]
  refine ⟨?_, ?_, ?_⟩
  · intro hnc
    rw [toggleInit_foldl_other post v hvpost]
    have hcf : layoutContains (List.foldl toggleInit m1 pre) v = false := by
      unfold layoutContains
      rw [hpre_v]
      unfold layoutContains at hnc
      exact hnc
    exact toggleInit_self_absent _ v hcf
  · intro hc
    rw [toggleInit_foldl_other post v hvpost]
    have hct : layoutContains (List.foldl toggleInit m1 pre) v = true := by
      unfold layoutContains
      rw [hpre_v]
      unfold layoutContains at hc
      exact hc
    exact toggleInit_self_present _ v hct
  · rw [toggleInit_foldl_other post r hrpost, toggleInit_other _ v r hrv,
      toggleInit_foldl_other pre r hrpre, hm1]
    simp [layoutInsert]

/-- C2 witness: an unmarked tile-init result 1 gets marked, a
previously marked one gets unmarked, and the transpose result 100 is
marked, for a transpose fed by one load reaching init result 1. -/
theorem C2_transpose_analysis_toggle_witness :
    analyzeTransposeOps ⟨100, [[1]]⟩ (fun _ => none) 1 = some (0, 1) ∧
    analyzeTransposeOps ⟨100, [[1]]⟩
      (fun w => if w = 1 then some (0, 1) else none) 1 = none ∧
    analyzeTransposeOps ⟨100, [[1]]⟩ (fun _ => none) 100 = some (0, 1) := by
  have h1 := C2_transpose_analysis_toggle 100 1 [] [] (fun _ => none)
    (by simp) (by simp) (by decide) (by simp) (by simp)
  have h2 := C2_transpose_analysis_toggle 100 1 [] []
    (fun w => if w = 1 then some (0, 1) else none)
    (by simp) (by simp) (by decide) (by simp) (by simp)
  exact ⟨h1.1 (by rfl), h2.2.1 (by rfl), h1.2.2⟩

/-- C4: for the 1:1 and round-robin cases (`wgDim = k * sgLayout * sgData`
per axis, `k = 1` giving the 1:1 case), the union over all subgroup ids
`0 ≤ id < sgLayout[0] * sgLayout[1]` of the coordinate ranges of the
produced subgroup tiles equals exactly the workgroup tile's coordinate
range: every produced tile lies inside the range (no spill), and every
point of the range is covered by exactly one (id, tile-origin) pair
(no gaps, no overlaps). -/
theorem C4_init_tile_exact_cover (L1 L2 d1 d2 k1 k2 b1 b2 : Nat) (marked : Bool)
    (hL1 : 0 < L1) (hL2 : 0 < L2) (hd1 : 0 < d1) (hd2 : 0 < d2) :
    (∀ id : Nat, id < L1 * L2 →
      ∀ off ∈ initTileOffsets (k1 * L1 * d1, k2 * L2 * d2) (d1, d2) (L1, L2)
          marked id (b1, b2),
        ∀ p : Nat × Nat, coversPoint off (d1, d2) p →
          b1 ≤ p.1 ∧ p.1 < b1 + k1 * L1 * d1 ∧
          b2 ≤ p.2 ∧ p.2 < b2 + k2 * L2 * d2) ∧
    (∀ x y : Nat, x < k1 * L1 * d1 → y < k2 * L2 * d2 →
      ∃! q : Nat × (Nat × Nat),
        q.1 < L1 * L2 ∧
        q.2 ∈ initTileOffsets (k1 * L1 * d1, k2 * L2 * d2) (d1, d2) (L1, L2)
            marked q.1 (b1, b2) ∧
        coversPoint q.2 (d1, d2) (b1 + x, b2 + y)) := by
  constructor
  · -- every produced tile lies inside the workgroup range
    intro id hid off hoff p hcov
    obtain ⟨⟨j1, hj1, he1⟩, ⟨j2, hj2, he2⟩⟩ :=
      (mem_initTileOffsets k1 k2 L1 L2 d1 d2 id b1 b2 marked hL1 hL2 hd1 hd2 hid
        off).mp hoff
    obtain ⟨hr, hc⟩ := initTileRowColIds_lt L1 L2 id marked hL1 hL2 hid
    obtain ⟨hp1, hp2, hp3, hp4⟩ := hcov
    set c1 := (initTileRowColIds (L1, L2) marked id).1 with hc1d
    set c2 := (initTileRowColIds (L1, L2) marked id).2 with hc2d
    have hs1 : (j1 * L1 + c1 + 1) * d1 = (j1 * L1 + c1) * d1 + d1 :=
      Nat.succ_mul _ _
    have hb1 : (j1 * L1 + c1 + 1) * d1 ≤ k1 * L1 * d1 := by
      apply Nat.mul_le_mul_right
      calc j1 * L1 + c1 + 1 ≤ j1 * L1 + L1 := by omega
        _ = (j1 + 1) * L1 := (Nat.succ_mul _ _).symm
        _ ≤ k1 * L1 := Nat.mul_le_mul_right L1 hj1
    have hs2 : (j2 * L2 + c2 + 1) * d2 = (j2 * L2 + c2) * d2 + d2 :=
      Nat.succ_mul _ _
    have hb2 : (j2 * L2 + c2 + 1) * d2 ≤ k2 * L2 * d2 := by
      apply Nat.mul_le_mul_right
      calc j2 * L2 + c2 + 1 ≤ j2 * L2 + L2 := by omega
        _ = (j2 + 1) * L2 := (Nat.succ_mul _ _).symm
        _ ≤ k2 * L2 := Nat.mul_le_mul_right L2 hj2
    refine ⟨by omega, by omega, by omega, by omega⟩
  · -- every point of the range is covered exactly once
    intro x y hx hy
    set m1 := x / d1 with hm1d
    set c1 := m1 % L1 with hc1d
    set j1 := m1 / L1 with hj1d
    have hm1 : m1 < k1 * L1 := (Nat.div_lt_iff_lt_mul hd1).mpr hx
    have hc1L : c1 < L1 := Nat.mod_lt _ hL1
    have hj1k : j1 < k1 := (Nat.div_lt_iff_lt_mul hL1).mpr hm1
    have hrec1 : j1 * L1 + c1 = m1 := by
      rw [hj1d, hc1d, Nat.mul_comm]; exact Nat.div_add_mod m1 L1
    have hlo1 : m1 * d1 ≤ x := Nat.div_mul_le_self x d1
    have hhi1 : x < m1 * d1 + d1 := by
      have h := Nat.div_add_mod x d1
      rw [← hm1d] at h
      have hmod := Nat.mod_lt x hd1
      have hcm : d1 * m1 = m1 * d1 := Nat.mul_comm _ _
      omega
    set m2 := y / d2 with hm2d
    set c2 := m2 % L2 with hc2d
    set j2 := m2 / L2 with hj2d
    have hm2 : m2 < k2 * L2 := (Nat.div_lt_iff_lt_mul hd2).mpr hy
    have hc2L : c2 < L2 := Nat.mod_lt _ hL2
    have hj2k : j2 < k2 := (Nat.div_lt_iff_lt_mul hL2).mpr hm2
    have hrec2 : j2 * L2 + c2 = m2 := by
      rw [hj2d, hc2d, Nat.mul_comm]; exact Nat.div_add_mod m2 L2
    have hlo2 : m2 * d2 ≤ y := Nat.div_mul_le_self y d2
    have hhi2 : y < m2 * d2 + d2 := by
      have h := Nat.div_add_mod y d2
      rw [← hm2d] at h
      have hmod := Nat.mod_lt y hd2
      have hcm : d2 * m2 = m2 * d2 := Nat.mul_comm _ _
      omega
    obtain ⟨id0, ⟨hid0, hids0⟩, huniq⟩ :=
      rowColIds_unique L1 L2 c1 c2 marked hL1 hL2 hc1L hc2L
    have hfst0 : (initTileRowColIds (L1, L2) marked id0).1 = c1 :=
      congrArg Prod.fst hids0
    have hsnd0 : (initTileRowColIds (L1, L2) marked id0).2 = c2 :=
      congrArg Prod.snd hids0
    refine ⟨(id0, (b1 + m1 * d1, b2 + m2 * d2)), ⟨hid0, ?_, ?_⟩, ?_⟩
    · rw [mem_initTileOffsets k1 k2 L1 L2 d1 d2 id0 b1 b2 marked hL1 hL2 hd1 hd2
        hid0]
      exact ⟨⟨j1, hj1k, by rw [hfst0, hrec1]⟩, ⟨j2, hj2k, by rw [hsnd0, hrec2]⟩⟩
    · refine ⟨?_, ?_, ?_, ?_⟩ <;> dsimp only <;> omega
    · rintro ⟨id', ox', oy'⟩ ⟨hid', hmem', hcov'⟩
      obtain ⟨⟨j1', hj1', he1'⟩, ⟨j2', hj2', he2'⟩⟩ :=
        (mem_initTileOffsets k1 k2 L1 L2 d1 d2 id' b1 b2 marked hL1 hL2 hd1 hd2
          hid' (ox', oy')).mp hmem'
      obtain ⟨hr', hc'⟩ := initTileRowColIds_lt L1 L2 id' marked hL1 hL2 hid'
      set c1' := (initTileRowColIds (L1, L2) marked id').1 with hc1'd
      set c2' := (initTileRowColIds (L1, L2) marked id').2 with hc2'd
      obtain ⟨ha1, ha2, ha3, ha4⟩ := hcov'
      simp only at he1' he2' ha1 ha2 ha3 ha4
      have hM1lo : (j1' * L1 + c1') * d1 ≤ x := by omega
      have hM1hi : x < (j1' * L1 + c1') * d1 + d1 := by omega
      have hM1 : x / d1 = j1' * L1 + c1' :=
        Nat.div_eq_of_lt_le hM1lo (by rw [Nat.succ_mul]; exact hM1hi)
      have hMeq1 : j1' * L1 + c1' = m1 := by rw [hm1d, hM1]
      have hM2lo : (j2' * L2 + c2') * d2 ≤ y := by omega
      have hM2hi : y < (j2' * L2 + c2') * d2 + d2 := by omega
      have hM2 : y / d2 = j2' * L2 + c2' :=
        Nat.div_eq_of_lt_le hM2lo (by rw [Nat.succ_mul]; exact hM2hi)
      have hMeq2 : j2' * L2 + c2' = m2 := by rw [hm2d, hM2]
      have hc1eq : c1 = c1' := by
        rw [hc1d, ← hMeq1, Nat.add_comm, Nat.add_mul_mod_self_right,
          Nat.mod_eq_of_lt hr']
      have hc2eq : c2 = c2' := by
        rw [hc2d, ← hMeq2, Nat.add_comm, Nat.add_mul_mod_self_right,
          Nat.mod_eq_of_lt hc']
      have hids' : initTileRowColIds (L1, L2) marked id' = (c1, c2) := by
        rw [Prod.ext_iff]
        exact ⟨by rw [← hc1'd, hc1eq], by rw [← hc2'd, hc2eq]⟩
      have hideq : id' = id0 := huniq id' ⟨hid', hids'⟩
      have hox : ox' = b1 + m1 * d1 := by rw [he1', hMeq1]
      have hoy : oy' = b2 + m2 * d2 := by rw [he2', hMeq2]
      rw [Prod.ext_iff]
      exact ⟨hideq, by rw [Prod.ext_iff]; exact ⟨hox, hoy⟩⟩

/-- C4 witness: `sgLayout = [2, 2]`, `sgData = [2, 2]`, round-robin
factors `k = [2, 1]`, so the workgroup tile is `8 x 4`; the point
`(b1 + 5, b2 + 3) = (5, 3)` is covered by exactly one (id, origin)
pair. -/
theorem C4_init_tile_exact_cover_witness :
    ∃! q : Nat × (Nat × Nat),
      q.1 < 2 * 2 ∧
      q.2 ∈ initTileOffsets (2 * 2 * 2, 1 * 2 * 2) (2, 2) (2, 2) false q.1
          (0, 0) ∧
      coversPoint q.2 (2, 2) (0 + 5, 0 + 3) :=
  (C4_init_tile_exact_cover 2 2 2 2 2 1 0 0 false (by decide) (by decide)
    (by decide) (by decide)).2 5 3 (by decide) (by decide)

end WgToSg
